import Mathlib

/-!
Verification of the ANNOVAR exonic-annotation parser of Fred2
(`Fred2/IO/FileReader.py`, function `read_annovar_exonic`).

The Python function is embedded shallowly:
Python `str` values are Lean `String`s, and the string primitives used by
the source (`str.split`, `str.strip`, `str.lower`, `str.upper`, `int()`)
are reimplemented with Python 2 ASCII semantics.  The module-level
regular expression `RE` is embedded as a list of items of a small
backtracking matcher with greedy single-character-class quantifiers and
numbered capture groups, with Python's leftmost / greedy-backtracking
`findall` semantics.  Python exceptions (the fixed 9-name unpack of a
line, the 5-name unpack of a full match, `int()` failures, and the
`ty[0]` access on an empty token tuple) become an error sum type, and a
raised exception aborts the whole call, returning no variants.
A file is modelled as the list of its lines (without the trailing
newline, which the per-field `strip` of the source discards anyway).
-/

/-! ## Python string primitives (ASCII semantics of Python 2 `str`) -/

/-- The characters Python 2 `str.strip()` and `str.split()` treat as whitespace. -/
def isPyWs (c : Char) : Bool :=
  c = ' ' || c = '\t' || c = '\n' || c = '\r' || c = '\x0b' || c = '\x0c'

def stripChars (l : List Char) : List Char :=
  ((l.dropWhile isPyWs).reverse.dropWhile isPyWs).reverse

/-- Python `s.strip()`. -/
def pyStrip (s : String) : String := ⟨stripChars s.data⟩

/-- Python 2 `str.lower` on one character: only ASCII A-Z is lowered. -/
def pyLowerChar (c : Char) : Char :=
  if 65 ≤ c.toNat ∧ c.toNat ≤ 90 then Char.ofNat (c.toNat + 32) else c

/-- Python 2 `str.upper` on one character: only ASCII a-z is raised. -/
def pyUpperChar (c : Char) : Char :=
  if 97 ≤ c.toNat ∧ c.toNat ≤ 122 then Char.ofNat (c.toNat - 32) else c

def pyLower (s : String) : String := ⟨s.data.map pyLowerChar⟩

def pyUpper (s : String) : String := ⟨s.data.map pyUpperChar⟩

/-- Python `s.split(sep)` for a one-character separator: keeps empty parts,
`"".split(sep) == [""]`. -/
def splitCh (sep : Char) : List Char → List (List Char)
  | [] => [[]]
  | c :: tl =>
    match splitCh sep tl with
    | [] => if c = sep then [[], []] else [[c]]
    | h :: t => if c = sep then [] :: h :: t else (c :: h) :: t

def pySplit (sep : Char) (s : String) : List String :=
  (splitCh sep s.data).map (fun l => ⟨l⟩)

/-- Helper of `pySplitWs`: splits on whitespace runs, dropping empty parts. -/
def splitWsAux : List Char → List Char → List (List Char)
  | [], [] => []
  | [], acc => [acc.reverse]
  | c :: tl, acc =>
    if isPyWs c then
      match acc with
      | [] => splitWsAux tl []
      | _ => acc.reverse :: splitWsAux tl []
    else splitWsAux tl (c :: acc)

/-- Python `s.split()` with no argument: split on whitespace runs, no empty parts. -/
def pySplitWs (s : String) : List String := (splitWsAux s.data []).map (fun l => ⟨l⟩)

def digitVal (c : Char) : Option Nat :=
  if 48 ≤ c.toNat ∧ c.toNat ≤ 57 then some (c.toNat - 48) else none

def digitsToNatAux : List Char → Nat → Option Nat
  | [], acc => some acc
  | c :: tl, acc =>
    match digitVal c with
    | some d => digitsToNatAux tl (acc * 10 + d)
    | none => none

def digitsToNat : List Char → Option Nat
  | [] => none
  | l => digitsToNatAux l 0

/-- Python 2 `int(s)` on an already-stripped string: an optional sign followed by
at least one decimal digit; `none` models a raised `ValueError`. -/
def parsePyInt (s : String) : Option Int :=
  match s.data with
  | '-' :: tl => (digitsToNat tl).map (fun n => -(n : Int))
  | '+' :: tl => (digitsToNat tl).map (fun n => (n : Int))
  | l => (digitsToNat l).map (fun n => (n : Int))

/-! ## A backtracking matcher for the module's regular expression

The source compiles `RE = re.compile("((\w+):(\w+):exon\d+:c.\D*(\d+)\D\w*:p.\D*(\d+)\D\w*)")`.
Every quantifier of that pattern ranges over a single-character class, so the
pattern is embedded as a flat list of items; `reMatch` implements Python's
greedy backtracking (longest repetition first, shorter on failure of the rest)
and records capture-group spans as absolute positions. -/

/-- The character classes that occur in the pattern: `\w`, `\d`, `\D` and `.`
(with Python 2 `str` patterns, `\w` is `[a-zA-Z0-9_]` and `.` is any
character but a newline). -/
inductive CC where
  | word | digit | nondigit | anyc
deriving DecidableEq, Repr

def ccMatch : CC → Char → Bool
  | .word, c => (97 ≤ c.toNat && c.toNat ≤ 122) || (65 ≤ c.toNat && c.toNat ≤ 90)
      || (48 ≤ c.toNat && c.toNat ≤ 57) || c = '_'
  | .digit, c => 48 ≤ c.toNat && c.toNat ≤ 57
  | .nondigit, c => !(48 ≤ c.toNat && c.toNat ≤ 57)
  | .anyc, c => c != '\n'

/-- One token of the flattened pattern: a literal, one character of a class,
a greedy `*` or `+` over a class, or a capture-group boundary. -/
inductive RItem where
  | lit : Char → RItem
  | cls : CC → RItem
  | star : CC → RItem
  | plus : CC → RItem
  | gopen : Nat → RItem
  | gclose : Nat → RItem
deriving DecidableEq, Repr

/-- Length of the maximal run of characters of class `cc` at the head. -/
def countRun (cc : CC) : List Char → Nat
  | [] => 0
  | c :: tl => if ccMatch cc c then countRun cc tl + 1 else 0

/-- Greedy choice for a `*`/`+` repetition: try consuming `k` characters first
(the maximal run), then ever shorter prefixes, as Python's engine does. -/
def tryStar (cont : List Char → Nat → Option (List (Nat × Nat × Nat) × Nat))
    (input : List Char) (pos : Nat) : Nat → Option (List (Nat × Nat × Nat) × Nat)
  | 0 => cont input pos
  | k + 1 =>
    match cont (input.drop (k + 1)) (pos + (k + 1)) with
    | some r => some r
    | none => tryStar cont input pos k

/-- Match the item list at the head of `input` (which is the suffix of the
subject starting at absolute position `pos`).  `og` is the stack of open
groups, `caps` the closed ones as `(group, start, stop)`.  Returns the closed
groups and the end position of the match. -/
def reMatch : List RItem → List Char → Nat → List (Nat × Nat) → List (Nat × Nat × Nat) →
    Option (List (Nat × Nat × Nat) × Nat)
  | [], _, pos, _, caps => some (caps, pos)
  | .lit ch :: rest, input, pos, og, caps =>
    match input with
    | [] => none
    | c :: tl => if c = ch then reMatch rest tl (pos + 1) og caps else none
  | .cls cc :: rest, input, pos, og, caps =>
    match input with
    | [] => none
    | c :: tl => if ccMatch cc c then reMatch rest tl (pos + 1) og caps else none
  | .star cc :: rest, input, pos, og, caps =>
    tryStar (fun inp p => reMatch rest inp p og caps) input pos (countRun cc input)
  | .plus cc :: rest, input, pos, og, caps =>
    match input with
    | [] => none
    | c :: tl =>
      if ccMatch cc c then
        tryStar (fun inp p => reMatch rest inp p og caps) tl (pos + 1) (countRun cc tl)
      else none
  | .gopen n :: rest, input, pos, og, caps => reMatch rest input pos ((n, pos) :: og) caps
  | .gclose n :: rest, input, pos, og, caps =>
    match og with
    | [] => none
    | (m, s) :: ogtl =>
      if m = n then reMatch rest input pos ogtl ((n, s, pos) :: caps) else none

/-- The pattern `((\w+):(\w+):exon\d+:c.\D*(\d+)\D\w*:p.\D*(\d+)\D\w*)`,
flattened; groups are numbered as in the source (1 = the full description,
2 = gene symbol, 3 = transcript id, 4 = transcript position, 5 = protein
position). -/
def annovarRE : List RItem :=
  [.gopen 1,
   .gopen 2, .plus .word, .gclose 2,
   .lit ':',
   .gopen 3, .plus .word, .gclose 3,
   .lit ':',
   .lit 'e', .lit 'x', .lit 'o', .lit 'n',
   .plus .digit,
   .lit ':',
   .lit 'c',
   .cls .anyc,
   .star .nondigit,
   .gopen 4, .plus .digit, .gclose 4,
   .cls .nondigit,
   .star .word,
   .lit ':',
   .lit 'p',
   .cls .anyc,
   .star .nondigit,
   .gopen 5, .plus .digit, .gclose 5,
   .cls .nondigit,
   .star .word,
   .gclose 1]

/-- Scan for successive non-overlapping leftmost matches, as `re.findall`
does: try each start position from left to right, resume after each match
(one character further on an empty match).  Every step consumes at least one
character, so `fuel = length + 1` never runs out. -/
def scanFrom : Nat → List Char → Nat → List (List (Nat × Nat × Nat) × Nat)
  | 0, _, _ => []
  | fuel + 1, input, pos =>
    match reMatch annovarRE input pos [] [] with
    | some (caps, e) =>
      if pos < e then
        (caps, e) :: scanFrom fuel (input.drop (e - pos)) e
      else
        match input with
        | [] => [(caps, e)]
        | _ :: tl => (caps, e) :: scanFrom fuel tl (pos + 1)
    | none =>
      match input with
      | [] => []
      | _ :: tl => scanFrom fuel tl (pos + 1)

/-- The text captured by group `n`: the span between its recorded absolute
start and stop positions in the subject. -/
def grpStr (orig : List Char) (caps : List (Nat × Nat × Nat)) (n : Nat) : String :=
  match caps.find? (fun t => t.1 = n) with
  | some (_, s, e) => ⟨(orig.drop s).take (e - s)⟩
  | none => ⟨[]⟩

/-- One element of `RE.findall(line)`: the 5-tuple of captured groups, with the
source's names for the loop variables that receive them. -/
structure ReMatch5 where
  full : String
  geneID : String
  nm_id : String
  trans_pos : String
  prot_start : String
deriving DecidableEq, Repr

/-- `RE.findall(s)`: the list of group 5-tuples of the successive matches. -/
def reFindAll (s : String) : List ReMatch5 :=
  (scanFrom (s.data.length + 1) s.data 0).map (fun r =>
    ⟨grpStr s.data r.1 1, grpStr s.data r.1 2, grpStr s.data r.1 3,
     grpStr s.data r.1 4, grpStr s.data r.1 5⟩)

/-! ## Data model -/

/-- Modelled from the spec: the closed enumeration `VariationType` of
`Fred2.Core.Variant` (that module is not under `src/`); §3 of the spec lists
exactly these six categories. -/
inductive VariationType where
  | SNP | DEL | FSDEL | INS | FSINS | UNKNOWN
deriving DecidableEq, Repr

/-- Modelled from the spec: the `MutationSyntax` record of
`Fred2.Core.Variant` (not under `src/`), a plain carrier of the six
constructor arguments the parser passes (spec §3). -/
structure MutationSyntax where
  transcriptId : String
  transcriptPosition : Int
  proteinStartPosition : Int
  codingDnaString : String
  proteinString : String
  geneId : String
deriving DecidableEq, Repr

/-- Modelled from the spec: the `Variant` aggregate of `Fred2.Core.Variant`
(not under `src/`), a plain carrier of the constructor arguments the parser
passes (spec §3); `coding` is the transcript-id → `MutationSyntax` mapping,
kept as an association list with unique keys. -/
structure Variant where
  id : String
  type : VariationType
  chromosome : String
  genomicStart : Int
  referenceAllele : String
  alternateAllele : String
  coding : List (String × MutationSyntax)
  isHomozygous : Bool
  isSynonymous : Bool
  experimentalDesign : Option String
deriving DecidableEq, Repr

/-! ## The parser -/

/-- The `type_mapper` dictionary of `read_annovar_exonic`, keyed by the tuple
of whitespace tokens of the mutation-type field; `dict.get` semantics (a key
of any other shape simply misses). -/
def type_mapper : List String → Option VariationType
  | ["synonymous", "snv"] => some .SNP
  | ["nonsynonymous", "snv"] => some .SNP
  | ["stoploss", "snv"] => some .SNP
  | ["stopgain", "snv"] => some .SNP
  | ["nonframeshift", "deletion"] => some .DEL
  | ["frameshift", "deletion"] => some .FSDEL
  | ["nonframeshift", "insertion"] => some .INS
  | ["frameshift", "insertion"] => some .FSINS
  | _ => none

/-- Python `dict` assignment `d[k] = v` on an association list: overwrite in
place if the key exists, append otherwise. -/
def dictInsert (d : List (String × MutationSyntax)) (k : String) (v : MutationSyntax) :
    List (String × MutationSyntax) :=
  match d with
  | [] => [(k, v)]
  | (k', v') :: tl => if k' = k then (k, v) :: tl else (k', v') :: dictInsert tl k v

/-- Python `d.get(k)` on the association list. -/
def dictGet (d : List (String × MutationSyntax)) (k : String) : Option MutationSyntax :=
  match d with
  | [] => none
  | (k', v) :: tl => if k' = k then some v else dictGet tl k

/-- Number of entries of the association list carrying key `k`. -/
def countKey : List (String × MutationSyntax) → String → Nat
  | [], _ => 0
  | (k', _) :: tl, k => (if k' = k then 1 else 0) + countKey tl k

/-- Errors that abort `read_annovar_exonic` (Python exceptions). -/
inductive PErr where
  | shortLine
  | codingUnpackError
  | intConvError
  | badGenomeStart
  | emptyTypeTokens
deriving DecidableEq, Repr

/-- The body of the `for nm_id_pos in RE.findall(line)` loop for one match,
as a partial function: uppercase the transcript id, re-split the full match
on colons into exactly five parts recovering the raw coding strings, and
build the `MutationSyntax` with both captured positions zero-based by an
unconditional minus one.  `none` models the exceptions of the body. -/
def msOfMatch (m : ReMatch5) : Option (String × MutationSyntax) :=
  match pySplit ':' m.full with
  | [_, _, _, trans_coding, prot_coding] =>
    match parsePyInt m.trans_pos, parsePyInt m.prot_start with
    | some tp, some pp =>
      some (pyUpper m.nm_id,
        { transcriptId := pyUpper m.nm_id, transcriptPosition := tp - 1,
          proteinStartPosition := pp - 1, codingDnaString := trans_coding,
          proteinString := prot_coding, geneId := pyUpper m.geneID })
    | _, _ => none
  | _ => none

/-- The extraction loop over all matches, building the `coding` dict; an
exception in the body (a full match whose colon-split does not have exactly
five parts, or a failing `int()`) aborts with the corresponding error. -/
def buildCoding : List ReMatch5 → List (String × MutationSyntax) →
    Except PErr (List (String × MutationSyntax))
  | [], acc => .ok acc
  | m :: ms, acc =>
    match pySplit ':' m.full with
    | [_, _, _, trans_coding, prot_coding] =>
      match parsePyInt m.trans_pos, parsePyInt m.prot_start with
      | some tp, some pp =>
        buildCoding ms (dictInsert acc (pyUpper m.nm_id)
          { transcriptId := pyUpper m.nm_id, transcriptPosition := tp - 1,
            proteinStartPosition := pp - 1, codingDnaString := trans_coding,
            proteinString := prot_coding, geneId := pyUpper m.geneID })
      | _, _ => .error .intConvError
    | _ => .error .codingUnpackError

/-- The fate of one input line. -/
inductive LineResult where
  | emitted : Variant → LineResult
  | skippedFilter : LineResult
  | skippedUnknown : LineResult
  | err : PErr → LineResult
deriving DecidableEq, Repr

/-- The nine per-line fields: `map(lambda x: x.strip().lower(), line.split("\t")[:9])`. -/
def lineFields (line : String) : List String :=
  ((pySplit '\t' line).take 9).map (fun x => pyLower (pyStrip x))

/-- The line's primary gene symbol: `line.split(":")[0].strip().upper()`
applied to the (already normalized) annotation-detail field. -/
def geneOfDet (det : String) : String :=
  pyUpper (pyStrip ((pySplit ':' det).headD ""))

/-- The loop body of `read_annovar_exonic` after the nine fields are unpacked. -/
def processFields (gf : List String) (exp : Option String)
    (mut_id mut_type det chrom genome_start ref alt zygos : String) : LineResult :=
  let gene := geneOfDet det
  if gene ∉ gf ∧ gf ≠ [] then .skippedFilter
  else if gene = "UNKNOWN" then .skippedUnknown
  else
    match buildCoding (reFindAll det) [] with
    | .error e => .err e
    | .ok coding =>
      match parsePyInt genome_start with
      | none => .err .badGenomeStart
      | some gs =>
        match pySplitWs mut_type with
        | [] => .err .emptyTypeTokens
        | t0 :: ts =>
          .emitted
            { id := mut_id, type := (type_mapper (t0 :: ts)).getD .UNKNOWN,
              chromosome := chrom, genomicStart := gs,
              referenceAllele := pyUpper ref, alternateAllele := pyUpper alt,
              coding := coding, isHomozygous := zygos == "hom",
              isSynonymous := t0 == "synonymous", experimentalDesign := exp }

/-- One iteration of the `for line in f` loop: unpack the first nine
tab-fields (a `ValueError` when the line has fewer), then run the body. -/
def processLine (gf : List String) (exp : Option String) (line : String) : LineResult :=
  match lineFields line with
  | [mut_id, mut_type, det, chrom, genome_start, _, ref, alt, zygos] =>
    processFields gf exp mut_id mut_type det chrom genome_start ref alt zygos
  | _ => .err .shortLine

/-- The whole loop: variants in file order, a count of emitted warnings, and
abortion of the whole call at the first per-line exception. -/
def runLines (gf : List String) (exp : Option String) :
    List String → Except PErr (List Variant × Nat)
  | [] => .ok ([], 0)
  | l :: ls =>
    match processLine gf exp l with
    | .emitted v =>
      match runLines gf exp ls with
      | .ok (vs, w) => .ok (v :: vs, w)
      | .error e => .error e
    | .skippedFilter => runLines gf exp ls
    | .skippedUnknown =>
      match runLines gf exp ls with
      | .ok (vs, w) => .ok (vs, w + 1)
      | .error e => .error e
    | .err e => .error e

/-- `read_annovar_exonic(annovar_file, gene_filter, experimentalDesig)` over
the file's lines: a missing `gene_filter` becomes the empty list. -/
def read_annovar_exonic (lines : List String) (gene_filter : Option (List String))
    (exp : Option String) : Except PErr (List Variant × Nat) :=
  runLines (gene_filter.getD []) exp lines

/-! ## Observation helpers used by the theorem statements -/

/-- The normalized annotation-detail field of a line ("" when the line is short). -/
def detailOf (line : String) : String :=
  match lineFields line with
  | _ :: _ :: det :: _ => det
  | _ => ""

/-- The whitespace tokens of the normalized mutation-type field of a line. -/
def mutTypeTokensOf (line : String) : List String :=
  match lineFields line with
  | _ :: mt :: _ => pySplitWs mt
  | _ => []

/-- The type of the emitted variant, when the line emitted one. -/
def emittedType : LineResult → Option VariationType
  | .emitted v => some v.type
  | _ => none

/-- The coding dict of the emitted variant, when the line emitted one. -/
def emittedCoding : LineResult → Option (List (String × MutationSyntax))
  | .emitted v => some v.coding
  | _ => none

/-- Whether the whole call raised. -/
def isError : Except PErr (List Variant × Nat) → Bool
  | .error _ => true
  | .ok _ => false

/-- ASCII uppercase test. -/
def isUpperAscii (c : Char) : Bool := 65 ≤ c.toNat && c.toNat ≤ 90

/-- Whether a string holds no ASCII uppercase letter. -/
def noUpperString (s : String) : Bool := s.data.all (fun c => !isUpperAscii c)

/-- The last match of the list whose uppercased transcript id is `k`. -/
def lastMatchWithKey (ms : List ReMatch5) (k : String) : Option ReMatch5 :=
  (ms.filter (fun m => pyUpper m.nm_id == k)).getLast?

/-! ## Helper lemmas -/

theorem processLine_eq_processFields {line : String}
    {mi mt det ch gs gst rf al zy : String} (gf : List String) (exp : Option String)
    (hf : lineFields line = [mi, mt, det, ch, gs, gst, rf, al, zy]) :
    processLine gf exp line = processFields gf exp mi mt det ch gs rf al zy := by
  unfold processLine
  rw [hf]

theorem processFields_emitted {gf : List String} {exp : Option String}
    {mi mt det ch gs rf al zy : String} {v : Variant}
    (h : processFields gf exp mi mt det ch gs rf al zy = .emitted v) :
    ∃ coding g t0 ts,
      buildCoding (reFindAll det) [] = .ok coding ∧ parsePyInt gs = some g ∧
      pySplitWs mt = t0 :: ts ∧
      v = { id := mi, type := (type_mapper (t0 :: ts)).getD .UNKNOWN, chromosome := ch,
            genomicStart := g, referenceAllele := pyUpper rf, alternateAllele := pyUpper al,
            coding := coding, isHomozygous := zy == "hom", isSynonymous := t0 == "synonymous",
            experimentalDesign := exp } := by
  simp only [processFields] at h
  by_cases hc1 : geneOfDet det ∉ gf ∧ gf ≠ []
  · rw [if_pos hc1] at h; simp at h
  rw [if_neg hc1] at h
  by_cases hc2 : geneOfDet det = "UNKNOWN"
  · rw [if_pos hc2] at h; simp at h
  rw [if_neg hc2] at h
  split at h
  · simp at h
  rename_i coding hcod
  split at h
  · simp at h
  rename_i g hg
  split at h
  · simp at h
  rename_i t0 ts hty
  exact ⟨coding, g, t0, ts, hcod, hg, hty, (by simpa using h.symm)⟩

theorem processLine_emitted {gf : List String} {exp : Option String}
    {line : String} {v : Variant} (h : processLine gf exp line = .emitted v) :
    ∃ mi mt det ch gs gst rf al zy,
      lineFields line = [mi, mt, det, ch, gs, gst, rf, al, zy] ∧
      processFields gf exp mi mt det ch gs rf al zy = .emitted v := by
  unfold processLine at h
  split at h
  · next mi mt det ch gs gst rf al zy hf =>
    exact ⟨mi, mt, det, ch, gs, gst, rf, al, zy, hf, h⟩
  · simp at h

theorem processFields_run {gf : List String} {exp : Option String}
    {mi mt det ch gs rf al zy : String}
    {coding : List (String × MutationSyntax)} {g : Int} {t0 : String} {ts : List String}
    (hfil : geneOfDet det ∈ gf ∨ gf = []) (hg : geneOfDet det ≠ "UNKNOWN")
    (hcod : buildCoding (reFindAll det) [] = .ok coding)
    (hint : parsePyInt gs = some g) (hty : pySplitWs mt = t0 :: ts) :
    processFields gf exp mi mt det ch gs rf al zy = .emitted
      { id := mi, type := (type_mapper (t0 :: ts)).getD .UNKNOWN, chromosome := ch,
        genomicStart := g, referenceAllele := pyUpper rf, alternateAllele := pyUpper al,
        coding := coding, isHomozygous := zy == "hom", isSynonymous := t0 == "synonymous",
        experimentalDesign := exp } := by
  have hnot : ¬(geneOfDet det ∉ gf ∧ gf ≠ []) := by
    rcases hfil with h | h
    · exact fun hc => hc.1 h
    · exact fun hc => hc.2 h
  simp [processFields, hnot, hg, hcod, hint, hty]

theorem dictGet_dictInsert (d : List (String × MutationSyntax)) (k : String)
    (v : MutationSyntax) (q : String) :
    dictGet (dictInsert d k v) q = if k = q then some v else dictGet d q := by
  induction d with
  | nil =>
    by_cases h : k = q <;> simp [dictInsert, dictGet, h]
  | cons p tl ih =>
    obtain ⟨k1, v1⟩ := p
    by_cases h1 : k1 = k
    · subst h1
      by_cases h2 : k1 = q <;> simp [dictInsert, dictGet, h2]
    · by_cases h2 : k1 = q
      · subst h2
        have : k ≠ k1 := fun hc => h1 hc.symm
        simp [dictInsert, dictGet, h1, this]
      · simp [dictInsert, dictGet, h1, h2, ih]

theorem mem_dictInsert {d : List (String × MutationSyntax)} {k a : String}
    {v b : MutationSyntax} (h : (a, b) ∈ dictInsert d k v) :
    (a, b) ∈ d ∨ (a = k ∧ b = v) := by
  induction d with
  | nil =>
    simp [dictInsert] at h
    exact Or.inr h
  | cons p tl ih =>
    obtain ⟨k1, v1⟩ := p
    by_cases h1 : k1 = k
    · subst h1
      simp only [dictInsert, if_pos rfl] at h
      rcases List.mem_cons.mp h with h | h
      · exact Or.inr ⟨congrArg Prod.fst h, congrArg Prod.snd h⟩
      · exact Or.inl (List.mem_cons_of_mem _ h)
    · simp only [dictInsert, if_neg h1] at h
      rcases List.mem_cons.mp h with h | h
      · exact Or.inl (h ▸ List.mem_cons_self _ _)
      · rcases ih h with h | h
        · exact Or.inl (List.mem_cons_of_mem _ h)
        · exact Or.inr h

theorem countKey_dictInsert_ne {k q : String} (v : MutationSyntax) (hne : k ≠ q) :
    ∀ d, countKey (dictInsert d k v) q = countKey d q := by
  intro d
  induction d with
  | nil => simp [dictInsert, countKey, hne]
  | cons p tl ih =>
    obtain ⟨k1, v1⟩ := p
    by_cases h1 : k1 = k
    · subst h1
      simp [dictInsert, countKey, hne]
    · simp only [dictInsert, if_neg h1, countKey, ih]

theorem countKey_dictInsert {k q : String} (v : MutationSyntax) :
    ∀ d, countKey d q ≤ 1 → countKey (dictInsert d k v) q ≤ 1 := by
  intro d
  induction d with
  | nil =>
    intro _
    by_cases hkq : k = q <;> simp [dictInsert, countKey, hkq]
  | cons p tl ih =>
    intro h
    obtain ⟨k1, v1⟩ := p
    simp only [countKey] at h
    by_cases h1 : k1 = k
    · subst h1
      simp only [dictInsert, if_pos rfl, countKey]
      omega
    · simp only [dictInsert, if_neg h1, countKey]
      by_cases hkq : k = q
      · have hk1q : k1 ≠ q := fun hc => h1 (hc.trans hkq.symm)
        rw [if_neg hk1q] at h
        rw [if_neg hk1q]
        have := ih (by omega)
        omega
      · rw [countKey_dictInsert_ne v hkq]
        omega

theorem buildCoding_cons {m : ReMatch5} {ms : List ReMatch5}
    {acc d : List (String × MutationSyntax)}
    (h : buildCoding (m :: ms) acc = .ok d) :
    ∃ s, msOfMatch m = some (pyUpper m.nm_id, s) ∧
      buildCoding ms (dictInsert acc (pyUpper m.nm_id) s) = .ok d := by
  unfold buildCoding at h
  split at h
  · rename_i tc pc hsplit
    split at h
    · rename_i tp pp htp hpp
      exact ⟨_, by simp [msOfMatch, hsplit, htp, hpp], h⟩
    · simp at h
  · simp at h

theorem buildCoding_mem {ms : List ReMatch5} :
    ∀ {acc d : List (String × MutationSyntax)} {k : String} {s : MutationSyntax},
      buildCoding ms acc = .ok d → (k, s) ∈ d →
      (k, s) ∈ acc ∨ ∃ m ∈ ms, msOfMatch m = some (k, s) := by
  induction ms with
  | nil =>
    intro acc d k s h hm
    unfold buildCoding at h
    cases h
    exact Or.inl hm
  | cons m ms ih =>
    intro acc d k s h hm
    obtain ⟨s0, hms0, hrest⟩ := buildCoding_cons h
    rcases ih hrest hm with hacc | ⟨m', hm', hm's⟩
    · rcases mem_dictInsert hacc with hacc | ⟨hk, hs⟩
      · exact Or.inl hacc
      · subst hk; subst hs
        exact Or.inr ⟨m, List.mem_cons_self _ _, hms0⟩
    · exact Or.inr ⟨m', List.mem_cons_of_mem _ hm', hm's⟩

theorem buildCoding_countKey {ms : List ReMatch5} :
    ∀ {acc d : List (String × MutationSyntax)},
      buildCoding ms acc = .ok d → (∀ q, countKey acc q ≤ 1) →
      ∀ q, countKey d q ≤ 1 := by
  induction ms with
  | nil =>
    intro acc d h hacc
    unfold buildCoding at h
    cases h
    exact hacc
  | cons m ms ih =>
    intro acc d h hacc
    obtain ⟨s0, _, hrest⟩ := buildCoding_cons h
    exact ih hrest (fun q => countKey_dictInsert s0 acc (hacc q))

theorem lastMatchWithKey_cons (m : ReMatch5) (ms : List ReMatch5) (q : String) :
    lastMatchWithKey (m :: ms) q =
      match lastMatchWithKey ms q with
      | some m' => some m'
      | none => if pyUpper m.nm_id == q then some m else none := by
  unfold lastMatchWithKey
  rw [List.filter_cons]
  by_cases hp : (pyUpper m.nm_id == q) = true
  · rw [if_pos hp, hp]
    cases hf : ms.filter (fun m' => pyUpper m'.nm_id == q) with
    | nil => simp
    | cons x xs =>
      obtain ⟨y, hy⟩ : ∃ y, (x :: xs).getLast? = some y :=
        ⟨(x :: xs).getLast (by simp), List.getLast?_eq_getLast _ (by simp)⟩
      rw [List.getLast?_cons_cons, hy]
  · rw [if_neg hp]
    cases hf : ms.filter (fun m' => pyUpper m'.nm_id == q) with
    | nil => simp [eq_false_of_ne_true hp]
    | cons x xs =>
      obtain ⟨y, hy⟩ : ∃ y, (x :: xs).getLast? = some y :=
        ⟨(x :: xs).getLast (by simp), List.getLast?_eq_getLast _ (by simp)⟩
      rw [hy]

theorem buildCoding_get {ms : List ReMatch5} :
    ∀ {acc d : List (String × MutationSyntax)} (q : String),
      buildCoding ms acc = .ok d →
      dictGet d q =
        match lastMatchWithKey ms q with
        | some m => (msOfMatch m).map Prod.snd
        | none => dictGet acc q := by
  induction ms with
  | nil =>
    intro acc d q h
    unfold buildCoding at h
    cases h
    rfl
  | cons m ms ih =>
    intro acc d q h
    obtain ⟨s0, hms0, hrest⟩ := buildCoding_cons h
    rw [lastMatchWithKey_cons]
    have hih := ih q hrest
    cases hlast : lastMatchWithKey ms q with
    | some m' =>
      rw [hlast] at hih
      exact hih
    | none =>
      rw [hlast] at hih
      rw [hih, dictGet_dictInsert]
      by_cases hk : pyUpper m.nm_id = q
      · rw [if_pos hk]
        simp [hk, hms0]
      · rw [if_neg hk]
        simp [hk]

theorem char_toNat_ofNat {n : Nat} (h : n < 55296) : (Char.ofNat n).toNat = n := by
  simp [Char.ofNat, Nat.isValidChar, h, Char.ofNatAux, Char.toNat, UInt32.toNat]

theorem isUpperAscii_pyLowerChar (c : Char) : isUpperAscii (pyLowerChar c) = false := by
  unfold pyLowerChar
  by_cases h : 65 ≤ c.toNat ∧ c.toNat ≤ 90
  · rw [if_pos h]
    have hv : (Char.ofNat (c.toNat + 32)).toNat = c.toNat + 32 :=
      char_toNat_ofNat (by omega)
    simp only [isUpperAscii, hv]
    simp only [Bool.and_eq_false_iff, decide_eq_false_iff_not]
    omega
  · rw [if_neg h]
    simp only [isUpperAscii, Bool.and_eq_false_iff, decide_eq_false_iff_not]
    omega

theorem noUpperString_pyLower (s : String) : noUpperString (pyLower s) = true := by
  unfold noUpperString pyLower
  rw [List.all_eq_true]
  intro c hc
  obtain ⟨y, _, rfl⟩ := List.mem_map.mp hc
  simp [isUpperAscii_pyLowerChar]

theorem splitCh_subset {sep : Char} :
    ∀ {l : List Char} {p : List Char}, p ∈ splitCh sep l → ∀ {c : Char}, c ∈ p → c ∈ l := by
  intro l
  induction l with
  | nil =>
    intro p hp c hc
    simp [splitCh] at hp
    subst hp
    simp at hc
  | cons a tl ih =>
    intro p hp c hc
    unfold splitCh at hp
    cases hr : splitCh sep tl with
    | nil =>
      rw [hr] at hp
      replace hp : p ∈ (if a = sep then [[], []] else [[a]]) := hp
      by_cases ha : a = sep
      · rw [if_pos ha] at hp
        rcases List.mem_cons.mp hp with hp | hp
        · subst hp; simp at hc
        · simp at hp; subst hp; simp at hc
      · rw [if_neg ha] at hp
        simp at hp
        subst hp
        simp at hc
        subst hc
        exact List.mem_cons_self _ _
    | cons h t =>
      rw [hr] at hp
      replace hp : p ∈ (if a = sep then [] :: h :: t else (a :: h) :: t) := hp
      by_cases ha : a = sep
      · rw [if_pos ha] at hp
        rcases List.mem_cons.mp hp with hp | hp
        · subst hp; simp at hc
        · exact List.mem_cons_of_mem _ (ih (hr ▸ hp) hc)
      · rw [if_neg ha] at hp
        rcases List.mem_cons.mp hp with hp | hp
        · subst hp
          rcases List.mem_cons.mp hc with hc | hc
          · subst hc; exact List.mem_cons_self _ _
          · exact List.mem_cons_of_mem _ (ih (hr ▸ List.mem_cons_self h t) hc)
        · exact List.mem_cons_of_mem _ (ih (hr ▸ List.mem_cons_of_mem h hp) hc)

theorem pySplit_subset {sep : Char} {s p : String} (hp : p ∈ pySplit sep s) :
    ∀ {c : Char}, c ∈ p.data → c ∈ s.data := by
  intro c hc
  unfold pySplit at hp
  obtain ⟨l, hl, rfl⟩ := List.mem_map.mp hp
  exact splitCh_subset hl hc

theorem reFindAll_full_subset {s : String} {m : ReMatch5} (h : m ∈ reFindAll s) :
    ∀ {c : Char}, c ∈ m.full.data → c ∈ s.data := by
  intro c hc
  unfold reFindAll at h
  obtain ⟨r, _, rfl⟩ := List.mem_map.mp h
  simp only [grpStr] at hc
  split at hc
  · exact List.drop_subset _ _ (List.take_subset _ _ hc)
  · simp at hc

theorem msOfMatch_fields {m : ReMatch5} {k : String} {s : MutationSyntax}
    (h : msOfMatch m = some (k, s)) :
    k = pyUpper m.nm_id ∧ s.transcriptId = pyUpper m.nm_id ∧
    (∃ tp, parsePyInt m.trans_pos = some tp ∧ s.transcriptPosition = tp - 1) ∧
    (∃ pp, parsePyInt m.prot_start = some pp ∧ s.proteinStartPosition = pp - 1) ∧
    s.geneId = pyUpper m.geneID := by
  unfold msOfMatch at h
  split at h
  · split at h
    · rename_i tp pp htp hpp
      simp only [Option.some.injEq, Prod.mk.injEq] at h
      obtain ⟨hk, hs⟩ := h
      subst hk
      subst hs
      exact ⟨rfl, rfl, ⟨tp, htp, rfl⟩, ⟨pp, hpp, rfl⟩, rfl⟩
    · simp at h
  · simp at h

theorem msOfMatch_strings {m : ReMatch5} {k : String} {s : MutationSyntax}
    (h : msOfMatch m = some (k, s)) :
    s.codingDnaString ∈ pySplit ':' m.full ∧ s.proteinString ∈ pySplit ':' m.full := by
  unfold msOfMatch at h
  split at h
  · rename_i tc pc hsplit
    split at h
    · simp only [Option.some.injEq, Prod.mk.injEq] at h
      obtain ⟨-, hs⟩ := h
      subst hs
      rw [hsplit]
      exact ⟨by simp, by simp⟩
    · simp at h
  · simp at h

theorem processLine_short {gf : List String} {exp : Option String} {line : String}
    (h : (pySplit '\t' line).length < 9) :
    processLine gf exp line = .err .shortLine := by
  have hlen : (lineFields line).length < 9 := by
    unfold lineFields
    rw [List.length_map, List.length_take]
    omega
  unfold processLine
  split
  · rename_i hf
    rw [hf] at hlen
    simp at hlen
  · rfl

theorem runLines_error_of_short {gf : List String} {exp : Option String} :
    ∀ {lines : List String}, (∃ l ∈ lines, (pySplit '\t' l).length < 9) →
    ∃ e, runLines gf exp lines = .error e := by
  intro lines
  induction lines with
  | nil =>
    rintro ⟨l, hl, -⟩
    simp at hl
  | cons a ls ih =>
    rintro ⟨l, hl, hlen⟩
    rcases List.mem_cons.mp hl with rfl | hl
    · exact ⟨.shortLine, by simp [runLines, processLine_short hlen]⟩
    · obtain ⟨e, he⟩ := ih ⟨l, hl, hlen⟩
      cases hp : processLine gf exp a with
      | emitted v => exact ⟨e, by simp [runLines, hp, he]⟩
      | skippedFilter => exact ⟨e, by simp [runLines, hp, he]⟩
      | skippedUnknown => exact ⟨e, by simp [runLines, hp, he]⟩
      | err e0 => exact ⟨e0, by simp [runLines, hp]⟩

theorem emittedType_lookup {gf : List String} {exp : Option String} {line : String}
    {v : Variant} (h : processLine gf exp line = .emitted v) :
    v.type = (type_mapper (mutTypeTokensOf line)).getD .UNKNOWN := by
  obtain ⟨mi, mt, det, ch, gs, gst, rf, al, zy, hf, hpf⟩ := processLine_emitted h
  obtain ⟨coding, g, t0, ts, hcod, hg, hty, hv⟩ := processFields_emitted hpf
  have hmt : mutTypeTokensOf line = t0 :: ts := by
    unfold mutTypeTokensOf
    rw [hf]
    exact hty
  rw [hmt, hv]

theorem data_mk (l : List Char) : (String.mk l).data = l := rfl

theorem type_mapper_single (t : String) : type_mapper [t] = none := by
  unfold type_mapper
  split
  any_goals rfl
  all_goals simp_all

/-! ## Claims -/

/-- C1: for every line accepted by the gene filter whose mutation-type text
tokenizes into exactly the pair of a functional-effect and an event-kind
token, the Variant is emitted and its type is exactly the classifier-table
lookup of that pair, defaulting to UNKNOWN when the pair is absent from the
table; the lookup itself never raises. -/
theorem C1_pair_lookup_exact
    (gf : List String) (exp : Option String) (line : String)
    (mi mt det ch gs gst rf al zy : String) (coding : List (String × MutationSyntax))
    (g : Int) (a b : String)
    (hf : lineFields line = [mi, mt, det, ch, gs, gst, rf, al, zy])
    (hfil : geneOfDet det ∈ gf ∨ gf = [])
    (hgene : geneOfDet det ≠ "UNKNOWN")
    (hcod : buildCoding (reFindAll det) [] = .ok coding)
    (hint : parsePyInt gs = some g)
    (hty : pySplitWs mt = [a, b]) :
    ∃ v, processLine gf exp line = .emitted v ∧
      v.type = (type_mapper [a, b]).getD .UNKNOWN := by
  rw [processLine_eq_processFields gf exp hf]
  exact ⟨_, processFields_run hfil hgene hcod hint hty, rfl⟩

/-- Witness for C1 at the spec's concrete scenario line. -/
theorem C1_pair_lookup_exact_witness :
    emittedType (processLine [] none
      "mut1\tnonsynonymous snv\tegfr:nm_005228:exon1:c.g35a:p.g12d\tchr7\t100\t100\tg\ta\thet") =
      some .SNP := by
  obtain ⟨v, hv, ht⟩ := C1_pair_lookup_exact [] none
    "mut1\tnonsynonymous snv\tegfr:nm_005228:exon1:c.g35a:p.g12d\tchr7\t100\t100\tg\ta\thet"
    "mut1" "nonsynonymous snv" "egfr:nm_005228:exon1:c.g35a:p.g12d" "chr7" "100" "100" "g" "a"
    "het"
    [("NM_005228", ⟨"NM_005228", 34, 11, "c.g35a", "p.g12d", "EGFR"⟩)] 100
    "nonsynonymous" "snv" rfl (Or.inr rfl) (by decide) rfl rfl rfl
  rw [hv]
  simp only [emittedType, ht]
  rfl

/-- C2 counterexample: with the non-empty allow-list ["BRCA1"] (which does not
contain "UNKNOWN"), a line whose primary gene is UNKNOWN is dropped silently by
the gene filter — the whole call returns zero warnings, not the one warning the
claim demands for every filter argument. -/
theorem C2_cex_filtered_unknown_no_warning :
    processLine ["BRCA1"] none
      "mut1\tnonsynonymous snv\tunknown:nm_1:exon1:c.g35a:p.g12d\tchr7\t100\t100\tg\ta\thet" =
      .skippedFilter
    ∧ read_annovar_exonic
      ["mut1\tnonsynonymous snv\tunknown:nm_1:exon1:c.g35a:p.g12d\tchr7\t100\t100\tg\ta\thet"]
      (some ["BRCA1"]) none = .ok ([], 0) :=
  ⟨rfl, rfl⟩

/-- C2 (amended): a line whose primary gene normalizes to "UNKNOWN" is never
emitted: when the filter is empty or itself lists "UNKNOWN" the line is skipped
with exactly one warning, but when a non-empty filter excludes "UNKNOWN" the
gene filter drops the line first, silently. -/
theorem C2_unknown_always_skipped
    (gf : List String) (exp : Option String) (line : String)
    (mi mt det ch gs gst rf al zy : String)
    (hf : lineFields line = [mi, mt, det, ch, gs, gst, rf, al, zy])
    (hg : geneOfDet det = "UNKNOWN") :
    (processLine gf exp line = .skippedFilter ∨ processLine gf exp line = .skippedUnknown)
    ∧ (("UNKNOWN" ∈ gf ∨ gf = []) → processLine gf exp line = .skippedUnknown) := by
  rw [processLine_eq_processFields gf exp hf]
  constructor
  · by_cases hc : geneOfDet det ∉ gf ∧ gf ≠ []
    · left
      simp only [processFields]
      rw [if_pos hc]
    · right
      simp only [processFields]
      rw [if_neg hc, if_pos hg]
  · intro hfil
    have hc : ¬(geneOfDet det ∉ gf ∧ gf ≠ []) := by
      rcases hfil with h | h
      · exact fun hcon => hcon.1 (by rw [hg]; exact h)
      · exact fun hcon => hcon.2 h
    simp only [processFields]
    rw [if_neg hc, if_pos hg]

/-- Witness for C2 (amended): with no filter, the UNKNOWN-gene line is skipped
with the warning. -/
theorem C2_unknown_always_skipped_witness :
    processLine [] none
      "mut1\tnonsynonymous snv\tunknown:nm_1:exon1:c.g35a:p.g12d\tchr7\t100\t100\tg\ta\thet" =
      .skippedUnknown :=
  (C2_unknown_always_skipped [] none
    "mut1\tnonsynonymous snv\tunknown:nm_1:exon1:c.g35a:p.g12d\tchr7\t100\t100\tg\ta\thet"
    "mut1" "nonsynonymous snv" "unknown:nm_1:exon1:c.g35a:p.g12d" "chr7" "100" "100" "g" "a"
    "het" rfl rfl).2 (Or.inr rfl)

/-- C3 counterexample: two lines agreeing on the first two mutation-type tokens
but with an extra trailing token get different types: the extra token changes
the dictionary key (the full token tuple), so the second line is UNKNOWN, not
SNP. -/
theorem C3_cex_trailing_token_changes_type :
    emittedType (processLine [] none
      "mut1\tnonsynonymous snv\tegfr:nm_005228:exon1:c.g35a:p.g12d\tchr7\t100\t100\tg\ta\thet") =
      some .SNP
    ∧ emittedType (processLine [] none
      "mut1\tnonsynonymous snv x\tegfr:nm_005228:exon1:c.g35a:p.g12d\tchr7\t100\t100\tg\ta\thet") =
      some .UNKNOWN
    ∧ mutTypeTokensOf
      "mut1\tnonsynonymous snv\tegfr:nm_005228:exon1:c.g35a:p.g12d\tchr7\t100\t100\tg\ta\thet" =
      ["nonsynonymous", "snv"]
    ∧ mutTypeTokensOf
      "mut1\tnonsynonymous snv x\tegfr:nm_005228:exon1:c.g35a:p.g12d\tchr7\t100\t100\tg\ta\thet" =
      ["nonsynonymous", "snv", "x"] :=
  ⟨rfl, rfl, rfl, rfl⟩

/-- C3 (amended): the classification is computed from the FULL tuple of
whitespace tokens of the mutation-type text: any two emitted lines whose
token tuples agree in full get the same type (a pair present in the table
gives the table's result, any other tuple gives UNKNOWN). -/
theorem C3_full_tuple_determines_type
    (gf1 gf2 : List String) (e1 e2 : Option String) (l1 l2 : String) (v1 v2 : Variant)
    (h1 : processLine gf1 e1 l1 = .emitted v1)
    (h2 : processLine gf2 e2 l2 = .emitted v2)
    (ht : mutTypeTokensOf l1 = mutTypeTokensOf l2) :
    v1.type = v2.type := by
  rw [emittedType_lookup h1, emittedType_lookup h2, ht]

/-- Witness for C3 (amended) on two concrete lines with equal token tuples. -/
theorem C3_full_tuple_determines_type_witness :
    ({ id := "m", type := .FSINS, chromosome := "chr1", genomicStart := 5,
       referenceAllele := "G", alternateAllele := "A", coding := [], isHomozygous := true,
       isSynonymous := false, experimentalDesign := none } : Variant).type =
    ({ id := "n", type := .FSINS, chromosome := "chr1", genomicStart := 5,
       referenceAllele := "G", alternateAllele := "A", coding := [], isHomozygous := false,
       isSynonymous := false, experimentalDesign := none } : Variant).type :=
  C3_full_tuple_determines_type [] [] none none
    "m\tframeshift insertion\tabc\tchr1\t5\t5\tg\ta\thom"
    "n\tframeshift insertion\tabc\tchr1\t5\t5\tg\ta\thet"
    _ _ rfl rfl rfl

/-- C4 counterexample: a line whose mutation-type text is the single token
"frameshift" does not fail at all — the Variant is emitted with type UNKNOWN
(`ty[0]` exists for a one-element tuple; only an empty tuple makes it fail). -/
theorem C4_cex_one_token_emits :
    emittedType (processLine [] none "m\tframeshift\tabc\tchr1\t5\t5\tg\ta\thet") =
      some .UNKNOWN
    ∧ mutTypeTokensOf "m\tframeshift\tabc\tchr1\t5\t5\tg\ta\thet" = ["frameshift"] :=
  ⟨rfl, rfl⟩

/-- C4 (amended): on an accepted, otherwise well-formed line, a one-token
mutation-type text does not fail: the table lookup misses and the Variant is
emitted with type UNKNOWN; the out-of-range access (`ty[0]`) happens exactly
when the token tuple is empty. -/
theorem C4_one_token_unknown_zero_token_fails
    (gf : List String) (exp : Option String) (line : String)
    (mi mt det ch gs gst rf al zy : String) (coding : List (String × MutationSyntax)) (g : Int)
    (hf : lineFields line = [mi, mt, det, ch, gs, gst, rf, al, zy])
    (hfil : geneOfDet det ∈ gf ∨ gf = [])
    (hgene : geneOfDet det ≠ "UNKNOWN")
    (hcod : buildCoding (reFindAll det) [] = .ok coding)
    (hint : parsePyInt gs = some g) :
    (∀ t, pySplitWs mt = [t] →
      ∃ v, processLine gf exp line = .emitted v ∧ v.type = .UNKNOWN)
    ∧ (pySplitWs mt = [] → processLine gf exp line = .err .emptyTypeTokens) := by
  rw [processLine_eq_processFields gf exp hf]
  have hnot : ¬(geneOfDet det ∉ gf ∧ gf ≠ []) := by
    rcases hfil with h | h
    · exact fun hc => hc.1 h
    · exact fun hc => hc.2 h
  constructor
  · intro t hty
    refine ⟨_, processFields_run hfil hgene hcod hint hty, ?_⟩
    show (type_mapper [t]).getD .UNKNOWN = .UNKNOWN
    rw [type_mapper_single]
    rfl
  · intro hty
    simp [processFields, hnot, hgene, hcod, hint, hty]

/-- Witness for C4 (amended): the empty mutation-type field makes the call
fail, a one-token one does not. -/
theorem C4_one_token_unknown_zero_token_fails_witness :
    processLine [] none "m\t\tabc\tchr1\t5\t5\tg\ta\thet" = .err .emptyTypeTokens :=
  (C4_one_token_unknown_zero_token_fails [] none "m\t\tabc\tchr1\t5\t5\tg\ta\thet"
    "m" "" "abc" "chr1" "5" "5" "g" "a" "het" [] 5 rfl (Or.inr rfl) (by decide) rfl
    rfl).2 rfl

/-- C5: every entry of an emitted Variant's coding map comes from a regex match
of the annotation-detail field, and the stored MutationSyntax carries the
uppercased transcript id as both key and transcriptId, the captured 1-based
positions minus one (unconditionally, no clamping), and the uppercased
captured gene symbol. -/
theorem C5_syntax_fields
    (gf : List String) (exp : Option String) (line : String) (v : Variant)
    (h : processLine gf exp line = .emitted v) :
    (∀ k s, (k, s) ∈ v.coding → (k, s) ∈ (reFindAll (detailOf line)).filterMap msOfMatch)
    ∧ (∀ m : ReMatch5, ∀ k s, msOfMatch m = some (k, s) →
        k = pyUpper m.nm_id ∧ s.transcriptId = pyUpper m.nm_id
        ∧ (∃ tp, parsePyInt m.trans_pos = some tp ∧ s.transcriptPosition = tp - 1)
        ∧ (∃ pp, parsePyInt m.prot_start = some pp ∧ s.proteinStartPosition = pp - 1)
        ∧ s.geneId = pyUpper m.geneID) := by
  obtain ⟨mi, mt, det, ch, gs, gst, rf, al, zy, hf, hpf⟩ := processLine_emitted h
  obtain ⟨coding, g, t0, ts, hcod, -, -, hv⟩ := processFields_emitted hpf
  have hdet : detailOf line = det := by
    unfold detailOf
    rw [hf]
  have hvc : v.coding = coding := by rw [hv]
  constructor
  · intro k s hm
    rw [hvc] at hm
    rcases buildCoding_mem hcod hm with habs | ⟨m, hmem, hms⟩
    · simp at habs
    · rw [hdet]
      exact List.mem_filterMap.mpr ⟨m, hmem, hms⟩
  · intro m k s hms
    exact msOfMatch_fields hms

/-- Witness for C5 at the spec's concrete scenario line. -/
theorem C5_syntax_fields_witness :
    ("NM_005228",
      ({ transcriptId := "NM_005228", transcriptPosition := 34, proteinStartPosition := 11,
         codingDnaString := "c.g35a", proteinString := "p.g12d",
         geneId := "EGFR" } : MutationSyntax)) ∈
      (reFindAll (detailOf
        "mut1\tnonsynonymous snv\tegfr:nm_005228:exon1:c.g35a:p.g12d\tchr7\t100\t100\tg\ta\thet")).filterMap
        msOfMatch :=
  (C5_syntax_fields [] none
    "mut1\tnonsynonymous snv\tegfr:nm_005228:exon1:c.g35a:p.g12d\tchr7\t100\t100\tg\ta\thet"
    { id := "mut1", type := .SNP, chromosome := "chr7", genomicStart := 100,
      referenceAllele := "G", alternateAllele := "A",
      coding := [("NM_005228",
        { transcriptId := "NM_005228", transcriptPosition := 34, proteinStartPosition := 11,
          codingDnaString := "c.g35a", proteinString := "p.g12d", geneId := "EGFR" })],
      isHomozygous := false, isSynonymous := false, experimentalDesign := none }
    rfl).1 "NM_005228"
    { transcriptId := "NM_005228", transcriptPosition := 34, proteinStartPosition := 11,
      codingDnaString := "c.g35a", proteinString := "p.g12d", geneId := "EGFR" }
    (by simp)

/-- C6: a non-empty caller allow-list silently drops every line whose primary
gene is not listed (no Variant, no warning), and an empty allow-list never
drops a line through the filter. -/
theorem C6_gene_filter
    (gf : List String) (exp : Option String) (line : String)
    (mi mt det ch gs gst rf al zy : String)
    (hf : lineFields line = [mi, mt, det, ch, gs, gst, rf, al, zy]) :
    (geneOfDet det ∉ gf → gf ≠ [] → processLine gf exp line = .skippedFilter)
    ∧ (gf = [] → processLine gf exp line ≠ .skippedFilter) := by
  rw [processLine_eq_processFields gf exp hf]
  constructor
  · intro h1 h2
    simp only [processFields]
    rw [if_pos ⟨h1, h2⟩]
  · intro hgf
    have hc : ¬(geneOfDet det ∉ gf ∧ gf ≠ []) := fun hcon => hcon.2 hgf
    simp only [processFields]
    rw [if_neg hc]
    by_cases hu : geneOfDet det = "UNKNOWN"
    · rw [if_pos hu]
      simp
    · rw [if_neg hu]
      split
    
      · simp
      split
      · simp
      split <;> simp

/-- Witness for C6: with allow-list ["BRCA1"], a TP53 line is silently dropped. -/
theorem C6_gene_filter_witness :
    processLine ["BRCA1"] none
      "m\tnonsynonymous snv\ttp53:nm_000546:exon4:c.g215c:p.p72r\tchr17\t7579472\t7579472\tg\tc\thet" =
      .skippedFilter :=
  (C6_gene_filter ["BRCA1"] none
    "m\tnonsynonymous snv\ttp53:nm_000546:exon4:c.g215c:p.p72r\tchr17\t7579472\t7579472\tg\tc\thet"
    "m" "nonsynonymous snv" "tp53:nm_000546:exon4:c.g215c:p.p72r" "chr17" "7579472" "7579472"
    "g" "c" "het" rfl).1 (by decide) (by decide)

/-- C7: an accepted, otherwise well-formed line whose annotation-detail field
has no regex match still emits exactly one Variant, with an empty coding map;
failing transcript extraction alone never rejects a line. -/
theorem C7_no_match_empty_coding
    (gf : List String) (exp : Option String) (line : String)
    (mi mt det ch gs gst rf al zy : String) (g : Int) (t0 : String) (ts : List String)
    (hf : lineFields line = [mi, mt, det, ch, gs, gst, rf, al, zy])
    (hfil : geneOfDet det ∈ gf ∨ gf = [])
    (hgene : geneOfDet det ≠ "UNKNOWN")
    (hre : reFindAll det = [])
    (hint : parsePyInt gs = some g)
    (hty : pySplitWs mt = t0 :: ts) :
    ∃ v, processLine gf exp line = .emitted v ∧ v.coding = [] := by
  rw [processLine_eq_processFields gf exp hf]
  have hcod : buildCoding (reFindAll det) [] = .ok [] := by
    rw [hre]
    rfl
  exact ⟨_, processFields_run hfil hgene hcod hint hty, rfl⟩

/-- Witness for C7 on a line whose detail field "abc" matches nowhere. -/
theorem C7_no_match_empty_coding_witness :
    emittedCoding (processLine [] none "m\tnonsynonymous snv\tabc\tchr1\t5\t5\tg\ta\thet") =
      some [] := by
  obtain ⟨v, hv, hc⟩ := C7_no_match_empty_coding [] none
    "m\tnonsynonymous snv\tabc\tchr1\t5\t5\tg\ta\thet"
    "m" "nonsynonymous snv" "abc" "chr1" "5" "5" "g" "a" "het" 5 "nonsynonymous" ["snv"]
    rfl (Or.inr rfl) (by decide) rfl rfl rfl
  rw [hv]
  simp [emittedCoding, hc]

/-- C8: in an emitted Variant's coding map every transcript id has at most one
entry, and the entry stored under an id is exactly the MutationSyntax built
from the LAST regex match of the line carrying that (uppercased) id - later
matches silently overwrite earlier ones. -/
theorem C8_duplicate_last_wins
    (gf : List String) (exp : Option String) (line : String) (v : Variant)
    (h : processLine gf exp line = .emitted v) :
    ∀ k, countKey v.coding k ≤ 1
    ∧ dictGet v.coding k =
        match lastMatchWithKey (reFindAll (detailOf line)) k with
        | some m => (msOfMatch m).map Prod.snd
        | none => none := by
  obtain ⟨mi, mt, det, ch, gs, gst, rf, al, zy, hf, hpf⟩ := processLine_emitted h
  obtain ⟨coding, g, t0, ts, hcod, -, -, hv⟩ := processFields_emitted hpf
  have hdet : detailOf line = det := by
    unfold detailOf
    rw [hf]
  have hvc : v.coding = coding := by rw [hv]
  intro k
  constructor
  · rw [hvc]
    exact buildCoding_countKey hcod (fun q => by simp [countKey]) k
  · rw [hvc, hdet]
    rw [buildCoding_get k hcod]
    cases lastMatchWithKey (reFindAll det) k <;> rfl

/-- Witness for C8 on a line with two matches for the same transcript id: the
stored entry is the one of the second match (position 900, not 823). -/
theorem C8_duplicate_last_wins_witness :
    countKey [("NM_1",
      ({ transcriptId := "NM_1", transcriptPosition := 899, proteinStartPosition := 299,
         codingDnaString := "c.g900a", proteinString := "p.v300i",
         geneId := "FGD3" } : MutationSyntax))] "NM_1" ≤ 1
    ∧ dictGet [("NM_1",
      ({ transcriptId := "NM_1", transcriptPosition := 899, proteinStartPosition := 299,
         codingDnaString := "c.g900a", proteinString := "p.v300i",
         geneId := "FGD3" } : MutationSyntax))] "NM_1" =
      some { transcriptId := "NM_1", transcriptPosition := 899, proteinStartPosition := 299,
             codingDnaString := "c.g900a", proteinString := "p.v300i", geneId := "FGD3" } := by
  have h := C8_duplicate_last_wins [] none
    "m\tnonsynonymous snv\tfgd3:nm_1:exon6:c.g823a:p.v275i,fgd3:nm_1:exon6:c.g900a:p.v300i\tchr1\t5\t5\tg\ta\thet"
    { id := "m", type := .SNP, chromosome := "chr1", genomicStart := 5,
      referenceAllele := "G", alternateAllele := "A",
      coding := [("NM_1",
        { transcriptId := "NM_1", transcriptPosition := 899, proteinStartPosition := 299,
          codingDnaString := "c.g900a", proteinString := "p.v300i", geneId := "FGD3" })],
      isHomozygous := false, isSynonymous := false, experimentalDesign := none }
    rfl "NM_1"
  exact ⟨h.1, h.2.trans (by rfl)⟩

/-- C9: an input containing any line with fewer than nine tab-fields makes the
whole call fail with an error: no list of Variants (not even a partial one) is
returned. -/
theorem C9_short_line_aborts
    (lines : List String) (gfo : Option (List String)) (exp : Option String)
    (h : ∃ l ∈ lines, (pySplit '\t' l).length < 9) :
    ∃ e, read_annovar_exonic lines gfo exp = .error e := by
  unfold read_annovar_exonic
  exact runLines_error_of_short h

/-- Witness for C9 on a two-field line. -/
theorem C9_short_line_aborts_witness :
    isError (read_annovar_exonic ["mut1\tnonsynonymous snv"] none none) = true := by
  obtain ⟨e, he⟩ := C9_short_line_aborts ["mut1\tnonsynonymous snv"] none none
    ⟨"mut1\tnonsynonymous snv", by simp, by decide⟩
  rw [he]
  rfl

/-- C10: the raw coding-DNA and protein strings stored in every MutationSyntax
of an emitted Variant contain no ASCII uppercase letter, because the whole
annotation-detail field is lowercased during tokenization before the regex
runs. -/
theorem C10_coding_strings_lowercase
    (gf : List String) (exp : Option String) (line : String) (v : Variant)
    (h : processLine gf exp line = .emitted v) :
    ∀ k s, (k, s) ∈ v.coding →
      noUpperString s.codingDnaString = true ∧ noUpperString s.proteinString = true := by
  obtain ⟨mi, mt, det, ch, gs, gst, rf, al, zy, hf, hpf⟩ := processLine_emitted h
  obtain ⟨coding, g, t0, ts, hcod, -, -, hv⟩ := processFields_emitted hpf
  have hvc : v.coding = coding := by rw [hv]
  have hdet_mem : det ∈ lineFields line := by
    rw [hf]
    simp
  have hdet_lower : ∀ c ∈ det.data, isUpperAscii c = false := by
    unfold lineFields at hdet_mem
    obtain ⟨x, -, hxdet⟩ := List.mem_map.mp hdet_mem
    intro c hc
    rw [← hxdet] at hc
    simp only [pyLower, data_mk] at hc
    obtain ⟨y, -, rfl⟩ := List.mem_map.mp hc
    exact isUpperAscii_pyLowerChar y
  intro k s hm
  rw [hvc] at hm
  rcases buildCoding_mem hcod hm with habs | ⟨m, hmem, hms⟩
  · simp at habs
  · obtain ⟨htc, hpc⟩ := msOfMatch_strings hms
    constructor
    · unfold noUpperString
      rw [List.all_eq_true]
      intro c hc
      have h1 : c ∈ m.full.data := pySplit_subset htc hc
      have h2 : c ∈ det.data := reFindAll_full_subset hmem h1
      simp [hdet_lower c h2]
    · unfold noUpperString
      rw [List.all_eq_true]
      intro c hc
      have h1 : c ∈ m.full.data := pySplit_subset hpc hc
      have h2 : c ∈ det.data := reFindAll_full_subset hmem h1
      simp [hdet_lower c h2]

/-- Witness for C10 at the concrete scenario line. -/
theorem C10_coding_strings_lowercase_witness :
    noUpperString "c.g35a" = true ∧ noUpperString "p.g12d" = true :=
  C10_coding_strings_lowercase [] none
    "mut1\tnonsynonymous snv\tegfr:nm_005228:exon1:c.g35a:p.g12d\tchr7\t100\t100\tg\ta\thet"
    { id := "mut1", type := .SNP, chromosome := "chr7", genomicStart := 100,
      referenceAllele := "G", alternateAllele := "A",
      coding := [("NM_005228",
        { transcriptId := "NM_005228", transcriptPosition := 34, proteinStartPosition := 11,
          codingDnaString := "c.g35a", proteinString := "p.g12d", geneId := "EGFR" })],
      isHomozygous := false, isSynonymous := false, experimentalDesign := none }
    rfl "NM_005228"
    { transcriptId := "NM_005228", transcriptPosition := 34, proteinStartPosition := 11,
      codingDnaString := "c.g35a", proteinString := "p.g12d", geneId := "EGFR" }
    (by simp)
